import Mathlib

/-!
Shallow embedding of the core of the godoc-mcp server: the version index client
(src/fetcher/module-index.ts), the documentation cache (src/cache/index.ts), the
document extractor (src/fetcher/index.ts) and the orchestration logic of the tool
handlers (src/index.ts).  Stateful TypeScript classes become explicit state passing,
`fetch` outcomes become an explicit outcome type, thrown errors become `Except`.
-/

set_option maxRecDepth 4000

namespace GodocMcp

/- ===================== JavaScript string primitives ===================== -/

/-- JavaScript whitespace recognised by `String.prototype.trim` (restricted to the
characters that can occur in the feeds handled here). -/
def jsIsWhitespace (c : Char) : Bool :=
  c = ' ' || c = '\t' || c = '\n' || c = '\r'

/-- Models JavaScript `s.trim()`: drop leading and trailing whitespace. -/
def jsTrim (s : String) : String :=
  ⟨((s.data.dropWhile jsIsWhitespace).reverse.dropWhile jsIsWhitespace).reverse⟩

/-- Core of `splitOnChar`: split a character list at every occurrence of `c`.
The result is always non-empty, matching JavaScript `String.prototype.split`. -/
def splitOnCharList (c : Char) : List Char → List (List Char)
  | [] => [[]]
  | x :: xs =>
    match splitOnCharList c xs with
    | r :: rs => if x = c then [] :: r :: rs else (x :: r) :: rs
    | [] => [[x]]

/-- Models JavaScript `s.split(c)` for a one-character separator. -/
def splitOnChar (c : Char) (s : String) : List String :=
  (splitOnCharList c s.data).map (fun l => ⟨l⟩)

/-- Models JavaScript `s.split('/').pop()` (the final path segment; `""` when the
string is empty or ends in the separator). -/
def lastSegment (s : String) : String :=
  (splitOnChar '/' s).getLast?.getD ""

/-- Models JavaScript `s.split(c)[0]`: the characters before the first occurrence
of `c` (the whole string when `c` is absent). -/
def takeUntilChar (c : Char) (s : String) : String :=
  ⟨s.data.takeWhile (fun x => x ≠ c)⟩

/-- Models JavaScript `s.replace(/^\//, '')`: drop a single leading slash. -/
def stripLeadingSlash (s : String) : String :=
  match s.data with
  | '/' :: rest => ⟨rest⟩
  | _ => s

/-- JavaScript `a || b` on strings: `""` is falsy. -/
def jsOrStr (a b : String) : String := if a = "" then b else a

/-- JavaScript `a || b` where `a` is a possibly-absent string and the result is kept
as a possibly-absent string (`undefined` and `""` are both falsy). -/
def jsOrOptStr (a b : Option String) : Option String :=
  match a with
  | some s => if s = "" then b else some s
  | none => b

/-- JavaScript `a || b` on numbers as used for option defaults: `0` (and an absent
value) falls through to the default. -/
def jsOrInt (a : Option Int) (b : Int) : Int :=
  match a with
  | some x => if x = 0 then b else x
  | none => b

/- ===================== Flat JSON line parser ===================== -/

/-- The `{` character, written via its code point. -/
def lbrace : Char := Char.ofNat 123

/-- The `}` character, written via its code point. -/
def rbrace : Char := Char.ofNat 125

/-- Skip JSON whitespace. -/
def skipWs (cs : List Char) : List Char := cs.dropWhile jsIsWhitespace

/-- Read the body of a JSON string literal up to the closing quote (the feed's
field values contain no escape sequences, so none are interpreted). -/
def parseStringLitAux : List Char → List Char → Option (String × List Char)
  | [], _ => none
  | c :: rest, acc =>
    if c = '"' then some (⟨acc.reverse⟩, rest) else parseStringLitAux rest (c :: acc)

/-- Parse a JSON string literal, returning its contents and the remaining input. -/
def parseStringLit : List Char → Option (String × List Char)
  | c :: rest => if c = '"' then parseStringLitAux rest [] else none
  | [] => none

/-- Parse one `"key" : "value"` member of a flat JSON object. -/
def parsePair (cs : List Char) : Option ((String × String) × List Char) :=
  match parseStringLit (skipWs cs) with
  | none => none
  | some (k, cs1) =>
    match skipWs cs1 with
    | c :: cs2 =>
      if c = ':' then
        match parseStringLit (skipWs cs2) with
        | none => none
        | some (v, cs3) => some ((k, v), cs3)
      else none
    | [] => none

/-- Parse the members of a flat JSON object after the opening brace, requiring the
whole remaining input to be consumed (as `JSON.parse` does).  `fuel` bounds the
recursion. -/
def parseMembersAux : Nat → List Char → List (String × String) →
    Option (List (String × String))
  | 0, _, _ => none
  | fuel + 1, cs, acc =>
    match parsePair cs with
    | none => none
    | some (kv, cs1) =>
      match skipWs cs1 with
      | c :: cs2 =>
        if c = ',' then parseMembersAux fuel cs2 (kv :: acc)
        else if c = rbrace then
          if (skipWs cs2).isEmpty then some (kv :: acc).reverse else none
        else none
      | [] => none

/-- Models `JSON.parse(line)` restricted to the feed's record format: a single flat
JSON object whose values are strings.  Any other input is reported as a parse
failure (`none`), standing for the exception thrown by `JSON.parse` on malformed
input.  (A well-formed JSON value of a different shape is not produced by the
index feed and is treated as unparseable here.) -/
def jsonParseFlat (s : String) : Option (List (String × String)) :=
  match skipWs s.data with
  | [] => none
  | c :: cs =>
    if c = lbrace then
      match skipWs cs with
      | d :: ds =>
        if d = rbrace then (if (skipWs ds).isEmpty then some [] else none)
        else parseMembersAux (cs.length + 1) cs []
      | [] => none
    else none

/-- Field access on a parsed flat object, `none` when the key is absent
(JavaScript `undefined`). -/
def jsonField (obj : List (String × String)) (k : String) : Option String :=
  (obj.find? (fun kv => kv.1 = k)).map (fun kv => kv.2)

/- ===================== Version index client data ===================== -/

/-- One row of the module index version feed (src/types/index.ts, `ModuleVersion`). -/
structure ModuleVersion where
  path : String
  version : String
  timestamp : String
deriving Repr, DecidableEq

/-- An entry of `PackageVersions.versions`: the `{version, timestamp}` projection of
a feed row (src/fetcher/module-index.ts line 85). -/
structure VersionEntry where
  version : String
  timestamp : String
deriving Repr, DecidableEq

/-- `PackageVersions` (src/types/index.ts): path, versions newest first, and the
derived `latest` field (always set by `getPackageVersions`). -/
structure PackageVersions where
  path : String
  versions : List VersionEntry
  latest : String
deriving Repr, DecidableEq

/-- The four error kinds of `GoDocError` (src/types/index.ts lines 59-62). -/
inductive GoDocErrorCode where
  | NOT_FOUND
  | PARSE_ERROR
  | NETWORK_ERROR
  | TIMEOUT
deriving Repr, DecidableEq

/-- A thrown JavaScript error as observed by callers: an optional `code` tag (only
present when the throwing site attached one, as `GoDocError` does) and a message. -/
structure ThrownError where
  code : Option GoDocErrorCode
  message : String
deriving Repr, DecidableEq

/-- Models JavaScript `s.includes('-')` (the pre-release marker test of
src/fetcher/module-index.ts lines 96 and 135). -/
def includesHyphen (s : String) : Bool := s.data.contains '-'

/- ===================== Version index client operations ===================== -/

/-- The possible outcomes of the `fetch` of the index URL, as distinguished by
`ModuleIndexFetcher.fetchIndex`: a response (status, status text, body), an abort
fired by the configured timeout, or any other rejection of the fetch itself. -/
inductive FetchOutcome where
  | success (status : Nat) (statusText : String) (body : String)
  | abortError
  | failure (message : String)
deriving Repr, DecidableEq

/-- `Response.ok`: status in the inclusive range 200-299. -/
def httpOk (status : Nat) : Bool := 200 ≤ status && status ≤ 299

/-- Models one iteration of the feed-parsing loop (src/fetcher/module-index.ts
lines 38-49): `JSON.parse` the line, then read `Path || path`, `Version || version`,
`Timestamp || timestamp`.  A line whose `JSON.parse` fails is reported as `none`
(the loop catches the exception and skips the line).  A field absent from the
parsed object is `undefined` in JavaScript; it is modelled as `""` here, which is
indistinguishable for every property proved about the client. -/
def parseModuleLine (line : String) : Option ModuleVersion :=
  match jsonParseFlat line with
  | none => none
  | some obj =>
    some { path := (jsOrOptStr (jsonField obj "Path") (jsonField obj "path")).getD ""
         , version := (jsOrOptStr (jsonField obj "Version") (jsonField obj "version")).getD ""
         , timestamp := (jsOrOptStr (jsonField obj "Timestamp") (jsonField obj "timestamp")).getD "" }

/-- The body-processing of `fetchIndex` (src/fetcher/module-index.ts lines 34-49):
`text.trim().split('\n')`, then parse each line independently, keeping the rows
whose parse succeeds. -/
def parseFeedLines (text : String) : List ModuleVersion :=
  (splitOnChar '\n' (jsTrim text)).filterMap parseModuleLine

/-- `ModuleIndexFetcher.fetchIndex` (src/fetcher/module-index.ts lines 15-62) as a
function of the fetch outcome.  A non-ok response raises `HTTP <status>: <text>`
inside the try block; the catch clause rewraps every non-abort failure as
`Failed to fetch module index: <message>` and the abort as
`Module index fetch timeout`.  Neither rewrap attaches a `code` tag: the thrown
errors are plain `Error` objects. -/
def ModuleIndexFetcher.fetchIndex (outcome : FetchOutcome) :
    Except ThrownError (List ModuleVersion) :=
  match outcome with
  | .abortError => .error { code := none, message := "Module index fetch timeout" }
  | .failure msg =>
    .error { code := none, message := "Failed to fetch module index: " ++ msg }
  | .success status statusText body =>
    if httpOk status then .ok (parseFeedLines body)
    else
      .error { code := none
             , message := "Failed to fetch module index: HTTP " ++ toString status
                 ++ ": " ++ statusText }

/-- The mutable fields of a `ModuleIndexFetcher` instance: `cachedIndex` and
`lastFetchTime` (src/fetcher/module-index.ts lines 7-8). -/
structure IndexState where
  cachedIndex : Option (List ModuleVersion)
  lastFetchTime : Int
deriving Repr, DecidableEq

/-- `indexCacheTTL` (src/fetcher/module-index.ts line 9): one hour in milliseconds. -/
def indexCacheTTL : Int := 3600000

/-- `ModuleIndexFetcher.getIndex` (src/fetcher/module-index.ts lines 64-77).
`now` is `Date.now()`; `fetchResult` is the outcome `await this.fetchIndex()`
would produce.  A fresh cached snapshot short-circuits the fetch; otherwise the
fetch result either replaces the snapshot and stamps `lastFetchTime`, or (when the
awaited fetch rejects) propagates, leaving the state untouched because the
rejection occurs before either assignment. -/
def ModuleIndexFetcher.getIndex (st : IndexState) (now : Int)
    (fetchResult : Except ThrownError (List ModuleVersion)) :
    IndexState × Except ThrownError (List ModuleVersion) :=
  match st.cachedIndex with
  | some idx =>
    if now - st.lastFetchTime < indexCacheTTL then (st, .ok idx)
    else
      match fetchResult with
      | .ok ms => ({ cachedIndex := some ms, lastFetchTime := now }, .ok ms)
      | .error e => (st, .error e)
  | none =>
    match fetchResult with
    | .ok ms => ({ cachedIndex := some ms, lastFetchTime := now }, .ok ms)
    | .error e => (st, .error e)

/-- `stableVersions.length > 0 ? stableVersions[0].version : versions[0].version`
(src/fetcher/module-index.ts lines 96-97), with `v0` the head of `versions`. -/
def selectLatest (versions : List VersionEntry) (v0 : VersionEntry) : String :=
  match versions.filter (fun v => !(includesHyphen v.version)) with
  | s :: _ => s.version
  | [] => v0.version

/-- The comparator of the version sort (src/fetcher/module-index.ts line 89) as a
relation: `(a, b) => new Date(b.timestamp).getTime() - new Date(a.timestamp).getTime()`
orders entries by descending date value.  `dv` models `t => new Date(t).getTime()`. -/
def tsDesc (dv : String → Int) : VersionEntry → VersionEntry → Prop :=
  fun a b => dv b.timestamp ≤ dv a.timestamp

instance (dv : String → Int) : DecidableRel (tsDesc dv) :=
  fun _ _ => inferInstanceAs (Decidable (_ ≤ _))

instance (dv : String → Int) : IsTotal VersionEntry (tsDesc dv) :=
  ⟨fun _ _ => le_total _ _⟩

instance (dv : String → Int) : IsTrans VersionEntry (tsDesc dv) :=
  ⟨fun _ _ _ hab hbc => le_trans hbc hab⟩

/-- The rows of the index with the requested path, projected to
`{version, timestamp}` (src/fetcher/module-index.ts lines 83-88). -/
def packageEntries (index : List ModuleVersion) (packagePath : String) :
    List VersionEntry :=
  (index.filter (fun m => m.path = packagePath)).map
    (fun m => { version := m.version, timestamp := m.timestamp })

/-- The filtered rows sorted newest-timestamp-first (src/fetcher/module-index.ts
line 89).  The sort is modelled by `List.insertionSort` with the comparator's
descending order; like the JavaScript engine's `Array.prototype.sort` it produces
a list sorted by descending `dv` that is a permutation of the filtered rows,
which is all any proved property depends on. -/
def sortedEntries (dv : String → Int) (index : List ModuleVersion)
    (packagePath : String) : List VersionEntry :=
  List.insertionSort (tsDesc dv) (packageEntries index packagePath)

/-- `ModuleIndexFetcher.getPackageVersions` (src/fetcher/module-index.ts lines
79-104) over an already-obtained index snapshot. -/
def ModuleIndexFetcher.getPackageVersions (dv : String → Int)
    (index : List ModuleVersion) (packagePath : String) : Option PackageVersions :=
  match sortedEntries dv index packagePath with
  | [] => none
  | v0 :: rest =>
    some { path := packagePath
         , versions := v0 :: rest
         , latest := selectLatest (v0 :: rest) v0 }

/-- The `latest` selection rule as the spec states it, relative to the date value
`dv`: prefer a stable (hyphen-free) version of maximal date value; when no stable
version exists, fall back to a version of maximal date value overall. -/
def latestSelectionCorrect (dv : String → Int) (pv : PackageVersions) : Prop :=
  ((∃ v ∈ pv.versions, includesHyphen v.version = false) →
    ∃ v ∈ pv.versions, includesHyphen v.version = false ∧ pv.latest = v.version ∧
      ∀ w ∈ pv.versions, includesHyphen w.version = false →
        dv w.timestamp ≤ dv v.timestamp) ∧
  ((∀ v ∈ pv.versions, includesHyphen v.version = true) →
    ∃ v ∈ pv.versions, pv.latest = v.version ∧
      ∀ w ∈ pv.versions, dv w.timestamp ≤ dv v.timestamp)

/-- `ModuleIndexFetcher.getLatestVersion` (src/fetcher/module-index.ts lines
106-109): `packageVersions?.latest || null` (an empty `latest` is falsy). -/
def ModuleIndexFetcher.getLatestVersion (dv : String → Int)
    (index : List ModuleVersion) (packagePath : String) : Option String :=
  match ModuleIndexFetcher.getPackageVersions dv index packagePath with
  | some pv => if pv.latest = "" then none else some pv.latest
  | none => none

/- ===================== Documentation cache ===================== -/

/-- `CacheEntry<T>` (src/types/index.ts lines 48-52): the envelope
`DocumentationCache` wraps around every stored value. -/
structure CacheEnvelope (α : Type) where
  data : α
  timestamp : Int
  ttl : Int
deriving Repr, DecidableEq

/-- The state of the underlying `node-cache` store: the key/value/expiry entries
(in insertion order, as JavaScript object properties are), the configured
`maxKeys`, and the hit/miss counters of `getStats()`.  An expiry time `t` of `0`
means no expiry.  `node-cache` is a dependency, not part of src/; it is modelled
from its documented behaviour, which matches the spec's cache contract: in
particular with `maxKeys` configured a write to a full store is rejected
("the underlying store rejecting the write"), leaving the store unchanged. -/
structure NodeCacheState (α : Type) where
  data : List (String × α × Int)
  maxKeys : Int
  hits : Nat
  misses : Nat
deriving Repr, DecidableEq

/-- Look a key up in the raw entry list. -/
def ncLookup {α : Type} (data : List (String × α × Int)) (key : String) :
    Option (α × Int) :=
  (data.find? (fun e => e.1 = key)).map (fun e => e.2)

/-- Remove a key from the raw entry list. -/
def ncErase {α : Type} (data : List (String × α × Int)) (key : String) :
    List (String × α × Int) :=
  data.filter (fun e => ¬ (e.1 = key))

/-- Store a value under a key: replace in place when present, append otherwise
(JavaScript object property assignment). -/
def ncSetData {α : Type} (data : List (String × α × Int)) (key : String) (v : α)
    (t : Int) : List (String × α × Int) :=
  if data.any (fun e => e.1 = key) then
    data.map (fun e => if e.1 = key then (key, v, t) else e)
  else data ++ [(key, v, t)]

/-- `node-cache` `get`: a present, unexpired entry is a hit; an expired entry is
deleted and counted as a miss; an absent key is a miss. -/
def NodeCache.get {α : Type} (st : NodeCacheState α) (key : String) (now : Int) :
    NodeCacheState α × Option α :=
  match ncLookup st.data key with
  | some (v, t) =>
    if t ≠ 0 ∧ t < now then
      ({ st with data := ncErase st.data key, misses := st.misses + 1 }, none)
    else ({ st with hits := st.hits + 1 }, some v)
  | none => ({ st with misses := st.misses + 1 }, none)

/-- `node-cache` `set`: with `maxKeys` configured (`> -1`) and the store already
holding `maxKeys` entries the write is rejected (an `ECACHEFULL` error is thrown
before any mutation); otherwise the entry is stored with expiry
`now + ttl * 1000` (or no expiry for a zero ttl) and `true` is returned. -/
def NodeCache.set {α : Type} (st : NodeCacheState α) (key : String) (v : α)
    (ttlSeconds : Int) (now : Int) : Except String (NodeCacheState α × Bool) :=
  if st.maxKeys > -1 ∧ (st.data.length : Int) ≥ st.maxKeys then
    .error "ECACHEFULL: Cache max keys amount exceeded"
  else
    let t : Int := if ttlSeconds = 0 then 0 else now + ttlSeconds * 1000
    .ok ({ st with data := ncSetData st.data key v t }, true)

/-- `node-cache` `has`: like `get` but without touching the hit/miss counters
(an expired entry is still deleted). -/
def NodeCache.has {α : Type} (st : NodeCacheState α) (key : String) (now : Int) :
    NodeCacheState α × Bool :=
  match ncLookup st.data key with
  | some (_, t) =>
    if t ≠ 0 ∧ t < now then ({ st with data := ncErase st.data key }, false)
    else (st, true)
  | none => (st, false)

/-- `node-cache` `del`: remove the key, reporting how many entries were removed. -/
def NodeCache.del {α : Type} (st : NodeCacheState α) (key : String) :
    NodeCacheState α × Nat :=
  let n := st.data.length - (ncErase st.data key).length
  ({ st with data := ncErase st.data key }, n)

/-- `node-cache` `flushAll`: drop all entries and reset the statistics. -/
def NodeCache.flushAll {α : Type} (st : NodeCacheState α) : NodeCacheState α :=
  { st with data := [], hits := 0, misses := 0 }

/-- A `DocumentationCache` instance (src/cache/index.ts): the underlying
`node-cache` store plus the remembered `defaultTTL`. -/
structure DocumentationCache (α : Type) where
  cache : NodeCacheState (CacheEnvelope α)
  defaultTTL : Int
deriving Repr, DecidableEq

/-- The `DocumentationCache` constructor (src/cache/index.ts lines 9-25):
`defaultTTL = options?.stdTTL || 3600`, `maxKeys = options?.maxKeys || 1000`.
(`checkperiod` only schedules the background expiry sweep and affects no state
modelled here; the expiry events are diagnostic logging only.) -/
def DocumentationCache.new (α : Type) (stdTTL maxKeys : Option Int) :
    DocumentationCache α :=
  { cache := { data := [], maxKeys := jsOrInt maxKeys 1000, hits := 0, misses := 0 }
  , defaultTTL := jsOrInt stdTTL 3600 }

/-- `DocumentationCache.get` (src/cache/index.ts lines 27-40): read the envelope
from the store and unwrap `entry.data`; the surrounding try/catch turns any
internal failure into `undefined` (a miss), so the operation never throws. -/
def DocumentationCache.get {α : Type} (c : DocumentationCache α) (key : String)
    (now : Int) : DocumentationCache α × Option α :=
  let r := NodeCache.get c.cache key now
  ({ c with cache := r.1 }, r.2.map (fun e => e.data))

/-- `DocumentationCache.set` (src/cache/index.ts lines 42-58): wrap the value in a
`CacheEntry` envelope with `ttl || defaultTTL` and store it under that same
effective TTL; the surrounding try/catch turns any internal failure — including
the store rejecting the write when full — into a `false` return, so the operation
never throws. -/
def DocumentationCache.set {α : Type} (c : DocumentationCache α) (key : String)
    (value : α) (ttl : Option Int) (now : Int) : DocumentationCache α × Bool :=
  let eff := jsOrInt ttl c.defaultTTL
  let entry : CacheEnvelope α := { data := value, timestamp := now, ttl := eff }
  match NodeCache.set c.cache key entry eff now with
  | .ok (st, success) => ({ c with cache := st }, success)
  | .error _ => (c, false)

/-- `DocumentationCache.has` (src/cache/index.ts lines 60-62). -/
def DocumentationCache.has {α : Type} (c : DocumentationCache α) (key : String)
    (now : Int) : DocumentationCache α × Bool :=
  let r := NodeCache.has c.cache key now
  ({ c with cache := r.1 }, r.2)

/-- `DocumentationCache.delete` (src/cache/index.ts lines 64-70):
`this.cache.del(key) > 0`. -/
def DocumentationCache.delete {α : Type} (c : DocumentationCache α)
    (key : String) : DocumentationCache α × Bool :=
  let r := NodeCache.del c.cache key
  ({ c with cache := r.1 }, decide (r.2 > 0))

/-- `DocumentationCache.clear` (src/cache/index.ts lines 72-75). -/
def DocumentationCache.clear {α : Type} (c : DocumentationCache α) :
    DocumentationCache α :=
  { c with cache := NodeCache.flushAll c.cache }

/-- The observable part of `DocumentationCache.getStats` (src/cache/index.ts lines
77-85): the live key count and the hit/miss counters.  (`ksize`/`vsize` are
byte-size estimates of the stored strings, outside this model.) -/
structure CacheStats where
  keys : Nat
  hits : Nat
  misses : Nat
deriving Repr, DecidableEq

/-- `DocumentationCache.getStats` (src/cache/index.ts lines 77-85):
`keys = this.cache.keys().length`. -/
def DocumentationCache.getStats {α : Type} (c : DocumentationCache α) : CacheStats :=
  { keys := c.cache.data.length, hits := c.cache.hits, misses := c.cache.misses }

/-- One public cache operation, used to state invariants over arbitrary
operation sequences. -/
inductive CacheOp (α : Type) where
  | get (key : String) (now : Int)
  | set (key : String) (value : α) (ttl : Option Int) (now : Int)
  | has (key : String) (now : Int)
  | del (key : String)
  | clear
deriving Repr

/-- Apply one public cache operation to the cache state. -/
def DocumentationCache.apply {α : Type} (c : DocumentationCache α) :
    CacheOp α → DocumentationCache α
  | .get key now => (DocumentationCache.get c key now).1
  | .set key value ttl now => (DocumentationCache.set c key value ttl now).1
  | .has key now => (DocumentationCache.has c key now).1
  | .del key => (DocumentationCache.delete c key).1
  | .clear => DocumentationCache.clear c

/- ===================== Extractor data model ===================== -/

/-- `CodeExample` (src/types/index.ts lines 35-39). -/
structure CodeExample where
  name : String
  code : String
  output : Option String
deriving Repr, DecidableEq

/-- `FunctionDoc` (src/types/index.ts lines 12-18). -/
structure FunctionDoc where
  name : String
  signature : String
  documentation : String
  examples : Option (List CodeExample)
  packagePath : String
deriving Repr, DecidableEq

/-- `SearchResult` (src/types/index.ts lines 41-46); `score` is never set by the
extractor. -/
structure SearchResult where
  path : String
  name : String
  synopsis : String
  score : Option Int
deriving Repr, DecidableEq

/-- `PackageDoc` (src/types/index.ts lines 1-10). -/
structure PackageDoc where
  name : String
  importPath : String
  version : Option String
  synopsis : String
  overview : Option String
  readme : Option String
  subdirectories : Option (List String)
  imports : Option (List String)
deriving Repr, DecidableEq

/- ===================== Function doc extraction ===================== -/

/-- One `.Documentation-exampleDetails` block inside a function element, with the
(already trimmed) texts the extractor reads from it
(src/fetcher/index.ts lines 155-168). -/
structure ExampleEl where
  headerText : String
  codeText : String
  outputText : String
deriving Repr, DecidableEq

/-- One element matched by `$('[data-kind="function"]')`, with the (already
trimmed) texts and the header id the extractor reads from it
(src/fetcher/index.ts lines 142-170). -/
structure FuncElement where
  headerId : Option String
  declarationText : String
  contentText : String
  exampleEls : List ExampleEl
deriving Repr, DecidableEq

/-- The example collection of one matching function element
(src/fetcher/index.ts lines 155-168): keep blocks with non-empty code, default
the name to `"Example"`, drop an empty output. -/
def extractExamples (els : List ExampleEl) : List CodeExample :=
  els.filterMap (fun e =>
    if e.codeText = "" then none
    else some { name := jsOrStr e.headerText "Example"
              , code := e.codeText
              , output := if e.outputText = "" then none else some e.outputText })

/-- One iteration of the `$('[data-kind="function"]').each` loop
(src/fetcher/index.ts lines 142-170): on an id match, `signature` and
`documentation` are overwritten and the element's examples are appended to the
accumulated `examples` array. -/
def funcScanStep (functionName : String)
    (acc : String × String × List CodeExample) (el : FuncElement) :
    String × String × List CodeExample :=
  if el.headerId = some functionName then
    (el.declarationText, el.contentText, acc.2.2 ++ extractExamples el.exampleEls)
  else acc

/-- The whole scan over the function elements, starting from the empty
`signature`/`documentation`/`examples` of lines 137-139. -/
def scanFunctionElements (els : List FuncElement) (functionName : String) :
    String × String × List CodeExample :=
  els.foldl (funcScanStep functionName) ("", "", [])

/-- The try-block of `GoDocFetcher.getFunctionDoc` (src/fetcher/index.ts lines
135-184) applied to the function elements of a fetched page: an empty final
signature raises NOT_FOUND naming the symbol and the package; otherwise the
`FunctionDoc` is assembled (an empty example list becomes `undefined`). -/
def GoDocFetcher.getFunctionDocExtract (els : List FuncElement)
    (packagePath functionName : String) : Except ThrownError FunctionDoc :=
  let r := scanFunctionElements els functionName
  if r.1 = "" then
    .error { code := some .NOT_FOUND
           , message := "Function " ++ functionName ++ " not found in " ++ packagePath }
  else
    .ok { name := functionName
        , signature := r.1
        , documentation := r.2.1
        , examples := if r.2.2.isEmpty then none else some r.2.2
        , packagePath := packagePath }

/-- The catch clause of `GoDocFetcher.getFunctionDoc` (src/fetcher/index.ts lines
185-194): a NOT_FOUND is re-thrown as-is; anything else becomes a PARSE_ERROR
with a generic message. -/
def wrapFunctionExtractionError (e : ThrownError) : ThrownError :=
  if e.code = some GoDocErrorCode.NOT_FOUND then e
  else { code := some .PARSE_ERROR, message := "Failed to parse function documentation" }

/-- `GoDocFetcher.getFunctionDoc` after a successful page fetch: the extraction
body guarded by the catch clause. -/
def GoDocFetcher.getFunctionDoc (els : List FuncElement)
    (packagePath functionName : String) : Except ThrownError FunctionDoc :=
  match GoDocFetcher.getFunctionDocExtract els packagePath functionName with
  | .ok d => .ok d
  | .error e => .error (wrapFunctionExtractionError e)

/- ===================== Search result extraction ===================== -/

/-- One element matched by a search result container selector, with the pieces
the extractor reads from it (src/fetcher/index.ts lines 290-308): the first
link's `href` attribute and text, and the candidate name/synopsis texts (all
already trimmed; an absent link or attribute is `none`/`""`). -/
structure SearchEl where
  firstLinkHref : Option String
  firstLinkText : String
  headerText : String
  h2Text : String
  snippetSynopsisText : String
  firstParagraphText : String
  testIdSynopsisText : String
deriving Repr, DecidableEq

/-- A fetched search results page, presented as the element lists each of the four
candidate container selectors matches (src/fetcher/index.ts lines 281-286), in
document order. -/
structure SearchPage where
  searchSnippet : List SearchEl
  snippetTitle : List SearchEl
  searchResult : List SearchEl
  article : List SearchEl
deriving Repr, DecidableEq

/-- `(link.attr('href') || '').replace(/^\//, '').split('@')[0]`
(src/fetcher/index.ts lines 295-296). -/
def elPath (el : SearchEl) : String :=
  takeUntilChar '@' (stripLeadingSlash (el.firstLinkHref.getD ""))

/-- The name fallback chain (src/fetcher/index.ts lines 299-302). -/
def elName (el : SearchEl) : String :=
  jsOrStr el.firstLinkText (jsOrStr el.headerText (jsOrStr el.h2Text
    (jsOrStr (lastSegment (elPath el)) "")))

/-- The synopsis fallback chain (src/fetcher/index.ts lines 305-308). -/
def elSynopsis (el : SearchEl) : String :=
  jsOrStr el.snippetSynopsisText (jsOrStr el.firstParagraphText
    (jsOrStr el.testIdSynopsisText "No description available"))

/-- One iteration of the per-selector `.each` loop (src/fetcher/index.ts lines
290-318): an element is accepted — pushed onto `results` and flagging `found` —
exactly when its extracted path and name are non-empty and the path is not
already present. -/
def searchStep (acc : List SearchResult × Bool) (el : SearchEl) :
    List SearchResult × Bool :=
  let path := elPath el
  let name := elName el
  if path ≠ "" ∧ name ≠ "" ∧ ¬ acc.1.any (fun r => r.path = path) then
    (acc.1 ++ [{ path := path, name := name, synopsis := elSynopsis el, score := none }],
     true)
  else acc

/-- Run one selector's element list over the accumulated results, with the
`found` flag starting false (it is false whenever a selector iteration starts,
because a true flag breaks the loop). -/
def processSelector (els : List SearchEl) (results : List SearchResult) :
    List SearchResult × Bool :=
  els.foldl searchStep (results, false)

/-- The selector loop of `GoDocFetcher.searchPackages` (src/fetcher/index.ts lines
288-321): process each selector's matches in order and break after the first
selector that set `found`. -/
def searchSelectorLoop : List (List SearchEl) → List SearchResult → List SearchResult
  | [], results => results
  | els :: rest, results =>
    let r := processSelector els results
    if r.2 then r.1 else searchSelectorLoop rest r.1

/-- The extraction part of `GoDocFetcher.searchPackages` applied to a fetched
search page: try the four container selectors in their fixed order. -/
def GoDocFetcher.searchPackagesExtract (page : SearchPage) : List SearchResult :=
  searchSelectorLoop
    [page.searchSnippet, page.snippetTitle, page.searchResult, page.article] []

/- ===================== Query orchestrator ===================== -/

/-- A value stored in the documentation cache by the tool handlers of
src/index.ts: one of the payload shapes the six tools cache.  (`versions` carries
an `Option` because `getPackageVersions` can return `null` and the handler caches
that result before checking it.) -/
inductive Payload where
  | pkg (d : PackageDoc)
  | fn (d : FunctionDoc)
  | search (rs : List SearchResult)
  | examples (es : List CodeExample)
  | versions (v : Option PackageVersions)
deriving Repr, DecidableEq

/-- JavaScript truthiness of a cached payload, as tested by the `if (!doc)`
guards of the handlers: every object and array is truthy; a cached `null`
(only possible for a `versions` payload) is falsy. -/
def Payload.jsTruthy : Payload → Bool
  | .versions none => false
  | _ => true

/-- The `get_package_doc` cache key (src/index.ts line 191). -/
def packageKey (path : String) (version : Option String) : String :=
  match version with
  | some v => "package:" ++ path ++ "@" ++ v
  | none => "package:" ++ path

/-- The `get_function_doc` cache key (src/index.ts lines 219-221). -/
def functionKey (path : String) (version : Option String) (functionName : String) :
    String :=
  match version with
  | some v => "function:" ++ path ++ "@" ++ v ++ ":" ++ functionName
  | none => "function:" ++ path ++ ":" ++ functionName

/-- The `get_type_doc` cache key (src/index.ts lines 248-250). -/
def typeKey (path : String) (version : Option String) (typeName : String) : String :=
  match version with
  | some v => "type:" ++ path ++ "@" ++ v ++ ":" ++ typeName
  | none => "type:" ++ path ++ ":" ++ typeName

/-- The `search_packages` cache key (src/index.ts line 271). -/
def searchKey (query : String) (limit : Int) : String :=
  "search:" ++ query ++ ":" ++ toString limit

/-- The `get_package_examples` cache key (src/index.ts line 297). -/
def examplesKey (path : String) (version : Option String) : String :=
  match version with
  | some v => "examples:" ++ path ++ "@" ++ v
  | none => "examples:" ++ path

/-- The `get_package_versions` cache key (src/index.ts line 317). -/
def versionsKey (path : String) : String := "versions:" ++ path

/-- The `"latest"` sentinel resolution shared by the document handlers
(src/index.ts lines 187-189 etc.):
`if (version === 'latest') version = (await moduleIndex.getLatestVersion(p)) || undefined`.
(`getLatestVersion` already collapses a falsy latest to `none`.) -/
def resolveVersion (dv : String → Int) (index : List ModuleVersion)
    (packagePath : String) (version : Option String) : Option String :=
  if version = some "latest" then
    ModuleIndexFetcher.getLatestVersion dv index packagePath
  else version

/-- The `get_package_doc` handler (src/index.ts lines 182-208) after argument
decoding, over a resolved index snapshot.  `fetchDoc` stands for
`fetcher.getPackageDoc` on its success path (a thrown fetch error would
propagate before any cache write). -/
def handleGetPackageDoc (dv : String → Int) (index : List ModuleVersion)
    (fetchDoc : String → Option String → PackageDoc)
    (c : DocumentationCache Payload) (now : Int)
    (packagePath : String) (version : Option String) :
    DocumentationCache Payload × Payload :=
  let v := resolveVersion dv index packagePath version
  let cacheKey := packageKey packagePath v
  let r := DocumentationCache.get c cacheKey now
  let miss : DocumentationCache Payload × Payload :=
    let doc := Payload.pkg (fetchDoc packagePath v)
    ((DocumentationCache.set r.1 cacheKey doc none now).1, doc)
  match r.2 with
  | some doc => if doc.jsTruthy then (r.1, doc) else miss
  | none => miss

/-- The `search_packages` handler (src/index.ts lines 268-287): key
`search:<query>:<limit>` with `limit = args.limit || 10`, and a 300-second TTL on
the stored results.  `searchFetch` stands for `fetcher.searchPackages` on its
success path. -/
def handleSearchPackages (searchFetch : String → Int → List SearchResult)
    (c : DocumentationCache Payload) (now : Int)
    (query : String) (limit : Option Int) :
    DocumentationCache Payload × Payload :=
  let lim := jsOrInt limit 10
  let cacheKey := searchKey query lim
  let r := DocumentationCache.get c cacheKey now
  let miss : DocumentationCache Payload × Payload :=
    let results := Payload.search (searchFetch query lim)
    ((DocumentationCache.set r.1 cacheKey results (some 300) now).1, results)
  match r.2 with
  | some p => if p.jsTruthy then (r.1, p) else miss
  | none => miss

/-- The `get_package_versions` handler (src/index.ts lines 315-340): key
`versions:<path>`, the Version Index Client as the miss path, a 300-second TTL
(the possibly-`null` result is cached before the null check throws). -/
def handleGetPackageVersions (dv : String → Int) (index : List ModuleVersion)
    (c : DocumentationCache Payload) (now : Int) (packagePath : String) :
    DocumentationCache Payload × Except String Payload :=
  let cacheKey := versionsKey packagePath
  let r := DocumentationCache.get c cacheKey now
  let miss : DocumentationCache Payload × Except String Payload :=
    let vs := ModuleIndexFetcher.getPackageVersions dv index packagePath
    let payload := Payload.versions vs
    let c2 := (DocumentationCache.set r.1 cacheKey payload (some 300) now).1
    match vs with
    | none => (c2, .error ("No versions found for package: " ++ packagePath))
    | some _ => (c2, .ok payload)
  match r.2 with
  | some p => if p.jsTruthy then (r.1, .ok p) else miss
  | none => miss

/- ===================== Concrete inputs used by witnesses ===================== -/

/-- The date-value function of the pre-release example: the beta row's timestamp is
the newer one. -/
def c1Dv : String → Int := fun t => if t = "2023-12-01T00:00:00Z" then 2 else 1

/-- A feed snapshot holding a newer pre-release and an older stable version of the
same path (the spec's `test/pkg` example). -/
def c1Index : List ModuleVersion :=
  [⟨"test/pkg", "v2.0.0-beta.1", "2023-12-01T00:00:00Z"⟩,
   ⟨"test/pkg", "v1.9.0", "2023-11-01T00:00:00Z"⟩]

/-- A feed body with one malformed line between two valid lines. -/
def feedWithMalformedLine : String :=
  "\x7b\"Path\":\"good/package\",\"Version\":\"v1.0.0\",\"Timestamp\":\"2023-01-01T00:00:00Z\"\x7d\nthis is not json\n\x7b\"Path\":\"another/package\",\"Version\":\"v1.0.0\",\"Timestamp\":\"2023-01-01T00:00:00Z\"\x7d"

/-- A cache over `Nat` payloads with a configured maximum of one key, already
holding one entry. -/
def c5FullCache : DocumentationCache Nat :=
  (DocumentationCache.set (DocumentationCache.new Nat (some 60) (some 1))
    "a" 1 none 0).1

/-- An empty cache over `Nat` payloads. -/
def c5EmptyCache : DocumentationCache Nat :=
  DocumentationCache.new Nat (some 60) (some 1)

/-- Three insertions of distinct keys, more than the capacity of two used in the
capacity-bound witness. -/
def c8Ops : List (CacheOp Nat) :=
  [CacheOp.set "a" 1 none 0, CacheOp.set "b" 2 none 0, CacheOp.set "c" 3 none 0]

/-- A search element with no link at all: the first selector matches it, but its
extracted path is empty, so it yields no accepted result. -/
def searchElNoLink : SearchEl :=
  { firstLinkHref := none, firstLinkText := "", headerText := "", h2Text := ""
  , snippetSynopsisText := "", firstParagraphText := "", testIdSynopsisText := "" }

/-- A search element with a proper link to `/pkg`. -/
def searchElGood : SearchEl :=
  { firstLinkHref := some "/pkg", firstLinkText := "pkg", headerText := ""
  , h2Text := "", snippetSynopsisText := "", firstParagraphText := ""
  , testIdSynopsisText := "" }

/-- A page on which `.SearchSnippet` matches one linkless element and only
`article` matches an element with a usable link. -/
def searchPage0 : SearchPage :=
  { searchSnippet := [searchElNoLink], snippetTitle := [], searchResult := []
  , article := [searchElGood] }

/-- A fresh cache of payloads, as the orchestrator constructs it with the default
TTL of 3600 seconds and a maximum of 1000 keys. -/
def c2Cache : DocumentationCache Payload :=
  DocumentationCache.new Payload (some 3600) (some 1000)

/-- A concrete package document returned by the stand-in extractor. -/
def c2Doc : PackageDoc :=
  { name := "fmt", importPath := "fmt", version := none, synopsis := "fmt"
  , overview := none, readme := none, subdirectories := none, imports := none }

/-- A stand-in extractor success path returning `c2Doc` for every request. -/
def c2FetchDoc : String → Option String → PackageDoc := fun _ _ => c2Doc

/-- A stand-in search extractor returning no results. -/
def c2SearchFetch : String → Int → List SearchResult := fun _ _ => []

/-- A date-value function for requests that do not inspect timestamps. -/
def c2Dv : String → Int := fun _ => 0

/-- The cache-capacity invariant: the configured maximum is remembered and the
live key count never exceeds it. -/
def cacheWithinBound {α : Type} (c : DocumentationCache α) (m : Int) : Prop :=
  c.cache.maxKeys = m ∧ (c.cache.data.length : Int) ≤ m

/-- The six key kinds of the cache key scheme. -/
def schemeKinds : List String :=
  ["package", "function", "type", "search", "examples", "versions"]

/-- A key is an instance of the spec's colon-delimited cache key scheme: one of the
four shapes, with a kind drawn from the six kinds. -/
def keyMatchesScheme (key : String) : Prop :=
  ∃ kind path, kind ∈ schemeKinds ∧
    (key = kind ++ ":" ++ path ∨
     (∃ v, key = kind ++ ":" ++ path ++ "@" ++ v) ∨
     (∃ s, key = kind ++ ":" ++ path ++ ":" ++ s) ∨
     (∃ v s, key = kind ++ ":" ++ path ++ "@" ++ v ++ ":" ++ s))

end GodocMcp

open GodocMcp

/- ===================== Helper lemmas ===================== -/

theorem length_filterMap_eq_countP {α β : Type} (f : α → Option β) (l : List α) :
    (l.filterMap f).length = l.countP (fun a => (f a).isSome) := by
  induction l with
  | nil => rfl
  | cons a l ih =>
    cases h : f a <;>
      simp [List.filterMap_cons, h, List.countP_cons, ih]

/- ===================== C10 ===================== -/

/-- C10: if `getIndex` takes its refresh path (no snapshot, or a snapshot at least
one hour old) and the underlying fetch fails, the error propagates and the
snapshot and last-fetch time are unchanged — the failing call does not return a
stale snapshot — and any later call takes the refresh path again: its outcome is
determined entirely by the new fetch result. -/
theorem getIndex_failed_refresh_preserves_state (st : IndexState) (now now2 : Int)
    (e : ThrownError) (f2 : Except ThrownError (List ModuleVersion))
    (hstale : st.cachedIndex = none ∨ indexCacheTTL ≤ now - st.lastFetchTime)
    (hle : now ≤ now2) :
    ModuleIndexFetcher.getIndex st now (.error e) = (st, .error e) ∧
    (∀ ms, f2 = .ok ms →
      ModuleIndexFetcher.getIndex st now2 f2 =
        ({ cachedIndex := some ms, lastFetchTime := now2 }, .ok ms)) ∧
    (∀ e2, f2 = .error e2 →
      ModuleIndexFetcher.getIndex st now2 f2 = (st, .error e2)) := by
  obtain ⟨ci, last⟩ := st
  cases ci with
  | none =>
    refine ⟨rfl, ?_, ?_⟩
    · rintro ms rfl; rfl
    · rintro e2 rfl; rfl
  | some idx =>
    rcases hstale with h | h
    · exact absurd h (by simp)
    · simp only [ModuleIndexFetcher.getIndex] at *
      have h1 : ¬ (now - last < indexCacheTTL) := by omega
      have h2 : ¬ (now2 - last < indexCacheTTL) := by omega
      refine ⟨by simp [h1], ?_, ?_⟩
      · rintro ms rfl; simp [h2]
      · rintro e2 rfl; simp [h2]

/-- Witness for C10 at a fetcher that has no snapshot yet. -/
theorem getIndex_failed_refresh_witness :
    (ModuleIndexFetcher.getIndex ⟨none, 0⟩ 0 (.error ⟨none, "boom"⟩) =
      (⟨none, 0⟩, .error ⟨none, "boom"⟩)) ∧
    ModuleIndexFetcher.getIndex ⟨none, 0⟩ 1 (.ok []) =
      ({ cachedIndex := some [], lastFetchTime := 1 }, .ok []) := by
  obtain ⟨h1, h2, _⟩ := getIndex_failed_refresh_preserves_state ⟨none, 0⟩ 0 1
    ⟨none, "boom"⟩ (.ok []) (Or.inl rfl) (by omega)
  exact ⟨h1, h2 [] rfl⟩

/- ===================== C4 ===================== -/

/-- C4 counterexample: the timeout failure leaves the Version Index Client as a
plain error whose `code` tag is absent — it is not tagged with any of the four
error kinds. -/
theorem fetchIndex_timeout_error_untagged :
    ModuleIndexFetcher.fetchIndex FetchOutcome.abortError =
      Except.error { code := none, message := "Module index fetch timeout" } := rfl

/-- C4 amended: every failure leaving the Version Index Client's fetch is
classified (timeout versus other) only through its message; no failure carries an
error-kind tag. -/
theorem fetchIndex_errors_are_plain (o : FetchOutcome) (e : ThrownError)
    (h : ModuleIndexFetcher.fetchIndex o = .error e) :
    e.code = none ∧
    (o = .abortError → e.message = "Module index fetch timeout") ∧
    (∀ msg, o = .failure msg →
      e.message = "Failed to fetch module index: " ++ msg) ∧
    (∀ status statusText body, o = .success status statusText body →
      httpOk status = false ∧
      e.message = "Failed to fetch module index: HTTP " ++ toString status
        ++ ": " ++ statusText) := by
  cases o with
  | abortError =>
    simp only [ModuleIndexFetcher.fetchIndex, Except.error.injEq] at h
    subst h
    exact ⟨rfl, fun _ => rfl, by rintro _ ⟨⟩, by rintro _ _ _ ⟨⟩⟩
  | failure msg =>
    simp only [ModuleIndexFetcher.fetchIndex, Except.error.injEq] at h
    subst h
    refine ⟨rfl, by rintro ⟨⟩, ?_, by rintro _ _ _ ⟨⟩⟩
    rintro m ⟨⟩; rfl
  | success status statusText body =>
    by_cases hok : httpOk status
    · simp [ModuleIndexFetcher.fetchIndex, hok] at h
    · simp only [ModuleIndexFetcher.fetchIndex, hok, Bool.false_eq_true, if_false,
        Except.error.injEq] at h
      subst h
      refine ⟨rfl, by rintro ⟨⟩, by rintro _ ⟨⟩, ?_⟩
      rintro s st b ⟨⟩
      exact ⟨by simpa using hok, rfl⟩

/-- Witness for C4's amended statement at the concrete timeout failure. -/
theorem fetchIndex_errors_are_plain_witness :
    ({ code := none, message := "Module index fetch timeout"} : ThrownError).code
        = none ∧
    (FetchOutcome.abortError = FetchOutcome.abortError →
      ({ code := none, message := "Module index fetch timeout"} : ThrownError).message
        = "Module index fetch timeout") :=
  let r := fetchIndex_errors_are_plain FetchOutcome.abortError
    { code := none, message := "Module index fetch timeout" } rfl
  ⟨r.1, r.2.1⟩

/- ===================== C3 ===================== -/

/-- C3: with a well-delivered response body, `fetchIndex` parses each line
independently — the returned rows are exactly the lines whose parse succeeds, so
a mix of valid and invalid lines is not an error — while a failure or timeout of
the underlying fetch fails the whole call. -/
theorem fetchIndex_skips_unparseable_lines :
    (∀ status statusText body, httpOk status = true →
      ∃ ms, ModuleIndexFetcher.fetchIndex (.success status statusText body) = .ok ms ∧
        ms = (splitOnChar '\n' (jsTrim body)).filterMap parseModuleLine ∧
        ms.length = (splitOnChar '\n' (jsTrim body)).countP
          (fun l => (parseModuleLine l).isSome)) ∧
    (∃ e, ModuleIndexFetcher.fetchIndex .abortError = .error e) ∧
    (∀ msg, ∃ e, ModuleIndexFetcher.fetchIndex (.failure msg) = .error e) := by
  refine ⟨?_, ⟨_, rfl⟩, fun msg => ⟨_, rfl⟩⟩
  intro status statusText body hok
  refine ⟨parseFeedLines body, ?_, rfl, ?_⟩
  · simp [ModuleIndexFetcher.fetchIndex, hok]
  · exact length_filterMap_eq_countP _ _

/-- Witness for C3: a feed with one malformed line between two valid lines yields
exactly 2 parsed rows. -/
theorem fetchIndex_skips_unparseable_lines_witness :
    httpOk 200 = true ∧
    ∃ ms, ModuleIndexFetcher.fetchIndex (.success 200 "OK" feedWithMalformedLine)
        = .ok ms ∧ ms.length = 2 := by
  refine ⟨by decide, ?_⟩
  obtain ⟨ms, hok, _, hlen⟩ :=
    fetchIndex_skips_unparseable_lines.1 200 "OK" feedWithMalformedLine (by decide)
  refine ⟨ms, hok, ?_⟩
  rw [hlen]; decide

/- ===================== C9 ===================== -/

/-- C9: every cache key built by the tool handlers is an instance of the
colon-delimited scheme `<kind>:<path>`, `<kind>:<path>@<version>`,
`<kind>:<path>:<symbol>` or `<kind>:<path>@<version>:<symbol>`, with the kind
drawn from the six kinds. -/
theorem cache_keys_match_scheme (path q fname tname : String)
    (version : Option String) (limit : Int) :
    keyMatchesScheme (packageKey path version) ∧
    keyMatchesScheme (functionKey path version fname) ∧
    keyMatchesScheme (typeKey path version tname) ∧
    keyMatchesScheme (searchKey q limit) ∧
    keyMatchesScheme (examplesKey path version) ∧
    keyMatchesScheme (versionsKey path) := by
  refine ⟨?_, ?_, ?_, ?_, ?_, ?_⟩
  · cases version with
    | none => exact ⟨"package", path, by simp [schemeKinds],
        Or.inl (rfl)⟩
    | some v => exact ⟨"package", path, by simp [schemeKinds],
        Or.inr (Or.inl ⟨v, rfl⟩)⟩
  · cases version with
    | none => exact ⟨"function", path, by simp [schemeKinds],
        Or.inr (Or.inr (Or.inl ⟨fname, rfl⟩))⟩
    | some v => exact ⟨"function", path, by simp [schemeKinds],
        Or.inr (Or.inr (Or.inr ⟨v, fname, rfl⟩))⟩
  · cases version with
    | none => exact ⟨"type", path, by simp [schemeKinds],
        Or.inr (Or.inr (Or.inl ⟨tname, rfl⟩))⟩
    | some v => exact ⟨"type", path, by simp [schemeKinds],
        Or.inr (Or.inr (Or.inr ⟨v, tname, rfl⟩))⟩
  · exact ⟨"search", q, by simp [schemeKinds],
      Or.inr (Or.inr (Or.inl ⟨toString limit, rfl⟩))⟩
  · cases version with
    | none => exact ⟨"examples", path, by simp [schemeKinds],
        Or.inl (rfl)⟩
    | some v => exact ⟨"examples", path, by simp [schemeKinds],
        Or.inr (Or.inl ⟨v, rfl⟩)⟩
  · exact ⟨"versions", path, by simp [schemeKinds],
      Or.inl (rfl)⟩


/- ===================== Cache shape lemmas ===================== -/

theorem nodeCache_get_shape {α : Type} (st : NodeCacheState α) (k : String)
    (now : Int) :
    ((NodeCache.get st k now).1).maxKeys = st.maxKeys ∧
    ((NodeCache.get st k now).1).data.length ≤ st.data.length := by
  unfold NodeCache.get
  cases ncLookup st.data k with
  | none => exact ⟨rfl, le_refl _⟩
  | some vt =>
    obtain ⟨v, t⟩ := vt
    dsimp only
    by_cases hexp : t ≠ 0 ∧ t < now
    · rw [if_pos hexp]
      exact ⟨rfl, List.length_filter_le _ _⟩
    · rw [if_neg hexp]
      exact ⟨rfl, le_refl _⟩

theorem nodeCache_has_shape {α : Type} (st : NodeCacheState α) (k : String)
    (now : Int) :
    ((NodeCache.has st k now).1).maxKeys = st.maxKeys ∧
    ((NodeCache.has st k now).1).data.length ≤ st.data.length := by
  unfold NodeCache.has
  cases ncLookup st.data k with
  | none => exact ⟨rfl, le_refl _⟩
  | some vt =>
    obtain ⟨v, t⟩ := vt
    dsimp only
    by_cases hexp : t ≠ 0 ∧ t < now
    · rw [if_pos hexp]
      exact ⟨rfl, List.length_filter_le _ _⟩
    · rw [if_neg hexp]
      exact ⟨rfl, le_refl _⟩

theorem docCache_get_shape {α : Type} (c : DocumentationCache α) (k : String)
    (now : Int) :
    ((DocumentationCache.get c k now).1).cache.maxKeys = c.cache.maxKeys ∧
    ((DocumentationCache.get c k now).1).defaultTTL = c.defaultTTL ∧
    ((DocumentationCache.get c k now).1).cache.data.length ≤ c.cache.data.length :=
  ⟨(nodeCache_get_shape c.cache k now).1, rfl, (nodeCache_get_shape c.cache k now).2⟩

/-- A full store rejects the write: `DocumentationCache.set` catches the rejection
and returns the cache unchanged with `false`. -/
theorem docCache_set_full {α : Type} (c : DocumentationCache α) (k : String)
    (v : α) (ttl : Option Int) (now : Int)
    (hfull : c.cache.maxKeys > -1 ∧ (c.cache.data.length : Int) ≥ c.cache.maxKeys) :
    DocumentationCache.set c k v ttl now = (c, false) := by
  unfold DocumentationCache.set NodeCache.set
  simp [hfull]

/-- A store below capacity accepts the write, storing the envelope with the
effective TTL and its expiry time. -/
theorem docCache_set_ok {α : Type} (c : DocumentationCache α) (k : String)
    (v : α) (ttl : Option Int) (now : Int)
    (hroom : ¬ (c.cache.maxKeys > -1 ∧ (c.cache.data.length : Int) ≥ c.cache.maxKeys)) :
    DocumentationCache.set c k v ttl now =
      ({ c with cache := { c.cache with
          data := ncSetData c.cache.data k
            { data := v, timestamp := now, ttl := jsOrInt ttl c.defaultTTL }
            (if jsOrInt ttl c.defaultTTL = 0 then 0
             else now + jsOrInt ttl c.defaultTTL * 1000) } }, true) := by
  unfold DocumentationCache.set NodeCache.set
  simp [hroom]

/- ===================== C5 ===================== -/

/-- C5: `DocumentationCache.set` is a total function returning a boolean — it
reports `false` exactly when the underlying store rejects the write (a configured
maximum key count the store has already reached), leaving the cache unchanged in
that case — and `DocumentationCache.get` is a total function returning a
present-or-absent value: an absent key is reported as a miss, never as an
exception. -/
theorem cache_set_get_never_throw {α : Type} (c : DocumentationCache α)
    (k : String) (v : α) (ttl : Option Int) (now : Int) :
    ((DocumentationCache.set c k v ttl now).2 = false ↔
      (c.cache.maxKeys > -1 ∧ (c.cache.data.length : Int) ≥ c.cache.maxKeys)) ∧
    ((c.cache.maxKeys > -1 ∧ (c.cache.data.length : Int) ≥ c.cache.maxKeys) →
      DocumentationCache.set c k v ttl now = (c, false)) ∧
    (ncLookup c.cache.data k = none →
      (DocumentationCache.get c k now).2 = none ∧
      ((DocumentationCache.get c k now).1).cache.misses = c.cache.misses + 1) := by
  refine ⟨?_, docCache_set_full c k v ttl now, ?_⟩
  · by_cases hfull : c.cache.maxKeys > -1 ∧ (c.cache.data.length : Int) ≥ c.cache.maxKeys
    · rw [docCache_set_full c k v ttl now hfull]
      simpa using hfull
    · rw [docCache_set_ok c k v ttl now hfull]
      simpa using hfull
  · intro habs
    unfold DocumentationCache.get NodeCache.get
    simp [habs]

/-- Witness for C5 at a cache holding one entry with a configured maximum of one
key: the second write is rejected with `false`, and a lookup of an absent key is
a miss. -/
theorem cache_set_get_never_throw_witness :
    ((DocumentationCache.set c5FullCache "b" 2 none 0).2 = false ↔
      (c5FullCache.cache.maxKeys > -1 ∧
        (c5FullCache.cache.data.length : Int) ≥ c5FullCache.cache.maxKeys)) ∧
    (ncLookup c5EmptyCache.cache.data "z" = none) ∧
    ((DocumentationCache.get c5EmptyCache "z" 0).2 = none ∧
      ((DocumentationCache.get c5EmptyCache "z" 0).1).cache.misses =
        c5EmptyCache.cache.misses + 1) :=
  ⟨(cache_set_get_never_throw c5FullCache "b" 2 none 0).1,
   by decide,
   (cache_set_get_never_throw c5EmptyCache "z" 2 none 0).2.2 (by decide)⟩

/- ===================== C8 ===================== -/

theorem length_ncSetData {α : Type} (data : List (String × α × Int)) (key : String)
    (v : α) (t : Int) :
    (ncSetData data key v t).length =
      if data.any (fun e => e.1 = key) then data.length else data.length + 1 := by
  unfold ncSetData
  split <;> simp

theorem apply_preserves_bound {α : Type} (m : Int) (hm : 0 < m)
    (c : DocumentationCache α) (h : cacheWithinBound c m) (op : CacheOp α) :
    cacheWithinBound (DocumentationCache.apply c op) m := by
  obtain ⟨hmax, hlen⟩ := h
  cases op with
  | get key now =>
    have hs := docCache_get_shape c key now
    exact ⟨hs.1.trans hmax, le_trans (by exact_mod_cast hs.2.2) hlen⟩
  | set key value ttl now =>
    by_cases hfull : c.cache.maxKeys > -1 ∧ (c.cache.data.length : Int) ≥ c.cache.maxKeys
    · show cacheWithinBound (DocumentationCache.set c key value ttl now).1 m
      rw [docCache_set_full c key value ttl now hfull]
      exact ⟨hmax, hlen⟩
    · show cacheWithinBound (DocumentationCache.set c key value ttl now).1 m
      rw [docCache_set_ok c key value ttl now hfull]
      refine ⟨hmax, ?_⟩
      simp only [length_ncSetData]
      split
      · exact hlen
      · push_neg at hfull
        have hlt : (c.cache.data.length : Int) < m := by
          rw [← hmax]
          exact hfull (by omega)
        push_cast
        omega
  | has key now =>
    have hs := nodeCache_has_shape c.cache key now
    exact ⟨hs.1.trans hmax, le_trans (by exact_mod_cast hs.2) hlen⟩
  | del key =>
    exact ⟨hmax,
      le_trans (by exact_mod_cast List.length_filter_le _ c.cache.data) hlen⟩
  | clear =>
    exact ⟨hmax, by simpa using le_of_lt hm⟩

/-- C8: for a Document Cache constructed with a positive maximum key count, no
sequence of public cache operations — in particular no number of insertions —
can make `getStats().keys` exceed that maximum. -/
theorem cache_capacity_never_exceeded {α : Type} (m : Int) (hm : 0 < m)
    (stdTTL : Option Int) (ops : List (CacheOp α)) :
    (((ops.foldl DocumentationCache.apply
        (DocumentationCache.new α stdTTL (some m))).getStats.keys : Int)) ≤ m := by
  have hinit : cacheWithinBound (DocumentationCache.new α stdTTL (some m)) m := by
    refine ⟨?_, ?_⟩
    · simp only [DocumentationCache.new, jsOrInt]
      split
      · omega
      · rfl
    · simp only [DocumentationCache.new, List.length_nil, Nat.cast_zero]
      omega
  have main : ∀ (l : List (CacheOp α)) (c : DocumentationCache α),
      cacheWithinBound c m →
      cacheWithinBound (l.foldl DocumentationCache.apply c) m := by
    intro l
    induction l with
    | nil => exact fun c hc => hc
    | cons op ops ih =>
      intro c hc
      rw [List.foldl_cons]
      exact ih _ (apply_preserves_bound m hm c hc op)
  exact (main ops _ hinit).2

/-- Witness for C8: with a maximum of 2 keys, applying three insertions of
distinct keys leaves at most 2 live keys. -/
theorem cache_capacity_never_exceeded_witness :
    (0 : Int) < 2 ∧
    (((c8Ops.foldl DocumentationCache.apply
        (DocumentationCache.new Nat (some 60) (some 2))).getStats.keys : Int)) ≤ 2 :=
  ⟨by omega, cache_capacity_never_exceeded 2 (by omega) (some 60) c8Ops⟩

/- ===================== C6 ===================== -/

theorem funcScan_sig_source (fn : String) (els : List FuncElement)
    (acc : String × String × List CodeExample) :
    (els.foldl (funcScanStep fn) acc).1 = acc.1 ∨
    ∃ el ∈ els, el.headerId = some fn ∧
      (els.foldl (funcScanStep fn) acc).1 = el.declarationText := by
  induction els generalizing acc with
  | nil => exact Or.inl rfl
  | cons el els ih =>
    rw [List.foldl_cons]
    rcases ih (funcScanStep fn acc el) with h | ⟨el', hmem, hid, heq⟩
    · by_cases hid : el.headerId = some fn
      · right
        refine ⟨el, List.mem_cons_self el els, hid, ?_⟩
        rw [h]
        unfold funcScanStep
        rw [if_pos hid]
      · left
        rw [h]
        unfold funcScanStep
        rw [if_neg hid]
    · right
      exact ⟨el', List.mem_cons_of_mem el hmem, hid, heq⟩

theorem funcScan_sig_empty (fn : String) (els : List FuncElement)
    (h : ∀ el ∈ els, el.headerId = some fn → el.declarationText = "") :
    ∀ acc : String × String × List CodeExample, acc.1 = "" →
      (els.foldl (funcScanStep fn) acc).1 = "" := by
  induction els with
  | nil => exact fun acc hacc => hacc
  | cons el els ih =>
    intro acc hacc
    rw [List.foldl_cons]
    refine ih (fun e he hm => h e (List.mem_cons_of_mem el he) hm) _ ?_
    unfold funcScanStep
    by_cases hid : el.headerId = some fn
    · rw [if_pos hid]
      exact h el (List.mem_cons_self el els) hid
    · rw [if_neg hid]
      exact hacc

/-- C6: a function lookup succeeds only with a non-empty signature taken from an
element whose header id matches; when no matching element yields a non-empty
signature, the call (through its catch clause) fails with a NOT_FOUND error whose
message names both the package path and the symbol — re-raised as-is, not wrapped
— while any other error raised during extraction becomes a PARSE_ERROR. -/
theorem function_lookup_not_found_semantics (els : List FuncElement)
    (pkg fn : String) :
    (∀ doc, GoDocFetcher.getFunctionDocExtract els pkg fn = .ok doc →
      doc.signature ≠ "" ∧
      ∃ el ∈ els, el.headerId = some fn ∧ doc.signature = el.declarationText) ∧
    ((∀ el ∈ els, el.headerId = some fn → el.declarationText = "") →
      GoDocFetcher.getFunctionDoc els pkg fn =
        .error { code := some .NOT_FOUND
               , message := "Function " ++ fn ++ " not found in " ++ pkg }) ∧
    (∀ e : ThrownError, e.code = some GoDocErrorCode.NOT_FOUND →
      wrapFunctionExtractionError e = e) ∧
    (∀ e : ThrownError, e.code ≠ some GoDocErrorCode.NOT_FOUND →
      wrapFunctionExtractionError e =
        { code := some .PARSE_ERROR
        , message := "Failed to parse function documentation" }) := by
  refine ⟨?_, ?_, ?_, ?_⟩
  · intro doc hok
    unfold GoDocFetcher.getFunctionDocExtract at hok
    by_cases hsig : (scanFunctionElements els fn).1 = ""
    · rw [if_pos hsig] at hok
      exact absurd hok (by simp)
    · rw [if_neg hsig] at hok
      have hdoc : doc.signature = (scanFunctionElements els fn).1 := by
        cases hok
        rfl
      rcases funcScan_sig_source fn els ("", "", []) with h | ⟨el, hmem, hid, heq⟩
      · exact absurd h hsig
      · exact ⟨by rw [hdoc]; exact hsig, el, hmem, hid, by rw [hdoc]; exact heq⟩
  · intro hempty
    have hsig : (scanFunctionElements els fn).1 = "" :=
      funcScan_sig_empty fn els hempty ("", "", []) rfl
    unfold GoDocFetcher.getFunctionDoc GoDocFetcher.getFunctionDocExtract
    rw [if_pos hsig]
    rfl
  · intro e he
    unfold wrapFunctionExtractionError
    rw [if_pos he]
  · intro e he
    unfold wrapFunctionExtractionError
    rw [if_neg he]

/-- Witness for C6 at a one-element page whose single function element matches
`Printf` with a non-empty declaration, and at the two error shapes. -/
theorem function_lookup_not_found_semantics_witness :
    (∀ doc, GoDocFetcher.getFunctionDocExtract
        [⟨some "Printf", "func Printf(format string, a ...any) (n int, err error)",
          "Printf formats according to a format specifier.", []⟩] "fmt" "Printf"
        = .ok doc →
      doc.signature ≠ "" ∧
      ∃ el ∈ [(⟨some "Printf",
          "func Printf(format string, a ...any) (n int, err error)",
          "Printf formats according to a format specifier.", []⟩ : FuncElement)],
        el.headerId = some "Printf" ∧ doc.signature = el.declarationText) ∧
    GoDocFetcher.getFunctionDoc [] "fmt" "Missing" =
      .error { code := some .NOT_FOUND
             , message := "Function " ++ "Missing" ++ " not found in " ++ "fmt" } ∧
    wrapFunctionExtractionError { code := some .NETWORK_ERROR, message := "boom" } =
      { code := some .PARSE_ERROR
      , message := "Failed to parse function documentation" } :=
  let r := function_lookup_not_found_semantics
    [⟨some "Printf", "func Printf(format string, a ...any) (n int, err error)",
      "Printf formats according to a format specifier.", []⟩] "fmt" "Printf"
  let r2 := function_lookup_not_found_semantics [] "fmt" "Missing"
  ⟨r.1, r2.2.1 (by simp), r2.2.2.2 { code := some .NETWORK_ERROR, message := "boom" }
    (by simp)⟩

/- ===================== C7 ===================== -/

theorem searchStep_cases (acc : List SearchResult × Bool) (el : SearchEl) :
    (searchStep acc el).2 = true ∨ searchStep acc el = acc := by
  unfold searchStep
  dsimp only
  split
  · exact Or.inl rfl
  · exact Or.inr rfl

theorem searchFold_flag_mono (els : List SearchEl)
    (acc : List SearchResult × Bool) (h : acc.2 = true) :
    (els.foldl searchStep acc).2 = true := by
  induction els generalizing acc with
  | nil => exact h
  | cons el els ih =>
    rw [List.foldl_cons]
    refine ih _ ?_
    unfold searchStep
    dsimp only
    split
    · rfl
    · exact h

theorem searchFold_no_accept (els : List SearchEl) :
    ∀ acc : List SearchResult × Bool, (els.foldl searchStep acc).2 = false →
      els.foldl searchStep acc = acc := by
  induction els with
  | nil => exact fun _ _ => rfl
  | cons el els ih =>
    intro acc hflag
    rw [List.foldl_cons] at hflag ⊢
    rcases searchStep_cases acc el with hone | heq
    · exfalso
      have := searchFold_flag_mono els _ hone
      rw [this] at hflag
      exact absurd hflag (by simp)
    · rw [heq] at hflag ⊢
      exact ih acc hflag

/-- A selector whose processing does not set the `found` flag contributes no
results: the accumulated list passes through unchanged. -/
theorem processSelector_no_accept (els : List SearchEl)
    (results : List SearchResult)
    (h : (processSelector els results).2 = false) :
    (processSelector els results).1 = results := by
  unfold processSelector at *
  rw [searchFold_no_accept els (results, false) h]

/-- C7 counterexample: on a page whose first selector (`.SearchSnippet`) matches
an element with no link — so the selector yields a DOM match but no accepted
result — the extractor does not stop there: the fourth selector (`article`)
contributes the only result.  Stopping at the first selector that yields any
matches at all would have produced the empty list. -/
theorem search_selector_counterexample :
    searchPage0.searchSnippet ≠ [] ∧
    GoDocFetcher.searchPackagesExtract searchPage0 ≠
      (processSelector searchPage0.searchSnippet []).1 ∧
    GoDocFetcher.searchPackagesExtract searchPage0 =
      [{ path := "pkg", name := "pkg", synopsis := "No description available",
         score := none }] :=
  ⟨by decide, by decide, by decide⟩

/-- C7 amended: the extractor tries the four candidate container selectors in
their fixed order and stops at the first selector from which at least one result
is actually accepted (non-empty extracted path and name, new path); a selector
whose matches yield no accepted result contributes nothing and the chain
continues; selectors after the stopping one contribute no results. -/
theorem search_selector_stops_at_first_accepting (page : SearchPage) :
    GoDocFetcher.searchPackagesExtract page =
      (if (processSelector page.searchSnippet []).2 then
        (processSelector page.searchSnippet []).1
       else if (processSelector page.snippetTitle []).2 then
        (processSelector page.snippetTitle []).1
       else if (processSelector page.searchResult []).2 then
        (processSelector page.searchResult []).1
       else (processSelector page.article []).1) := by
  unfold GoDocFetcher.searchPackagesExtract
  simp only [searchSelectorLoop]
  by_cases h1 : (processSelector page.searchSnippet []).2 = true
  · rw [if_pos h1, if_pos h1]
  · have e1 : (processSelector page.searchSnippet []).1 = [] :=
      processSelector_no_accept _ _ (by simpa using h1)
    rw [if_neg h1, if_neg h1, e1]
    by_cases h2 : (processSelector page.snippetTitle []).2 = true
    · rw [if_pos h2, if_pos h2]
    · have e2 : (processSelector page.snippetTitle []).1 = [] :=
        processSelector_no_accept _ _ (by simpa using h2)
      rw [if_neg h2, if_neg h2, e2]
      by_cases h3 : (processSelector page.searchResult []).2 = true
      · rw [if_pos h3, if_pos h3]
      · have e3 : (processSelector page.searchResult []).1 = [] :=
          processSelector_no_accept _ _ (by simpa using h3)
        rw [if_neg h3, if_neg h3, e3]
        split <;> rfl

/- ===================== C1 ===================== -/

theorem sortedEntries_sorted (dv : String → Int) (index : List ModuleVersion)
    (P : String) : List.Sorted (tsDesc dv) (sortedEntries dv index P) :=
  List.sorted_insertionSort _ _

theorem sortedEntries_perm (dv : String → Int) (index : List ModuleVersion)
    (P : String) : (sortedEntries dv index P).Perm (packageEntries index P) :=
  List.perm_insertionSort _ _

/-- The head of a list sorted by descending date value has the maximal date value. -/
theorem sorted_head_max (dv : String → Int) (v0 : VersionEntry)
    (rest : List VersionEntry) (h : List.Sorted (tsDesc dv) (v0 :: rest)) :
    ∀ w ∈ v0 :: rest, dv w.timestamp ≤ dv v0.timestamp := by
  intro w hw
  rcases List.mem_cons.mp hw with heq | hw
  · rw [heq]
  · exact (List.sorted_cons.mp h).1 w hw

/-- When some entry is stable, `selectLatest` picks a stable entry of maximal
date value (the head of the filtered sorted list). -/
theorem selectLatest_stable (dv : String → Int) (versions : List VersionEntry)
    (v0 : VersionEntry) (hsorted : List.Sorted (tsDesc dv) versions)
    (hex : ∃ v ∈ versions, includesHyphen v.version = false) :
    ∃ v ∈ versions, includesHyphen v.version = false ∧
      selectLatest versions v0 = v.version ∧
      ∀ w ∈ versions, includesHyphen w.version = false →
        dv w.timestamp ≤ dv v.timestamp := by
  obtain ⟨u, hu, hsu⟩ := hex
  have hmemf : u ∈ versions.filter (fun v => !(includesHyphen v.version)) :=
    List.mem_filter.mpr ⟨hu, by simp [hsu]⟩
  cases hf : versions.filter (fun v => !(includesHyphen v.version)) with
  | nil =>
    rw [hf] at hmemf
    exact absurd hmemf (List.not_mem_nil u)
  | cons s srest =>
    have hsel : selectLatest versions v0 = s.version := by
      unfold selectLatest
      rw [hf]
    have hs_mem_filter : s ∈ versions.filter (fun v => !(includesHyphen v.version)) := by
      rw [hf]
      exact List.mem_cons_self _ _
    have hs_mem : s ∈ versions := (List.mem_filter.mp hs_mem_filter).1
    have hs_stable : includesHyphen s.version = false := by
      have := (List.mem_filter.mp hs_mem_filter).2
      simpa using this
    refine ⟨s, hs_mem, hs_stable, hsel, ?_⟩
    intro w hw hwst
    have hwf : w ∈ versions.filter (fun v => !(includesHyphen v.version)) :=
      List.mem_filter.mpr ⟨hw, by simp [hwst]⟩
    have hfsorted : List.Sorted (tsDesc dv)
        (versions.filter (fun v => !(includesHyphen v.version))) :=
      hsorted.filter _
    rw [hf] at hfsorted hwf
    exact sorted_head_max dv s srest hfsorted w hwf

/-- When every entry is a pre-release, `selectLatest` falls back to the head of
the sorted list. -/
theorem selectLatest_all_prerelease (v0 : VersionEntry)
    (rest : List VersionEntry)
    (hall : ∀ v ∈ v0 :: rest, includesHyphen v.version = true) :
    selectLatest (v0 :: rest) v0 = v0.version := by
  unfold selectLatest
  have hf : (v0 :: rest).filter (fun v => !(includesHyphen v.version)) = [] := by
    rw [List.filter_eq_nil_iff]
    intro a ha
    simp [hall a ha]
  rw [hf]

/-- C1: a package path with at least one feed row yields a `PackageVersions`
whose list is sorted newest-timestamp-first and is exactly the rows of that path,
and whose `latest` prefers the newest stable (hyphen-free) version, falling back
to the absolute newest when no stable version exists. -/
theorem getPackageVersions_sorted_and_latest (dv : String → Int)
    (index : List ModuleVersion) (P : String) (hrow : ∃ m ∈ index, m.path = P) :
    ∃ pv, ModuleIndexFetcher.getPackageVersions dv index P = some pv ∧
      pv.path = P ∧
      List.Sorted (tsDesc dv) pv.versions ∧
      pv.versions.Perm (packageEntries index P) ∧
      latestSelectionCorrect dv pv := by
  have hne : packageEntries index P ≠ [] := by
    obtain ⟨m, hm, hp⟩ := hrow
    intro hnil
    have hmem : ({ version := m.version, timestamp := m.timestamp } : VersionEntry)
        ∈ packageEntries index P := by
      unfold packageEntries
      exact List.mem_map_of_mem _ (List.mem_filter.mpr ⟨hm, by simpa using hp⟩)
    rw [hnil] at hmem
    exact absurd hmem (List.not_mem_nil _)
  obtain ⟨v0, rest, hcons⟩ : ∃ v0 rest, sortedEntries dv index P = v0 :: rest := by
    cases hS : sortedEntries dv index P with
    | nil =>
      exfalso
      have hp := sortedEntries_perm dv index P
      rw [hS] at hp
      exact hne hp.symm.eq_nil
    | cons v0 rest => exact ⟨v0, rest, rfl⟩
  have hgpv : ModuleIndexFetcher.getPackageVersions dv index P =
      some { path := P, versions := v0 :: rest
           , latest := selectLatest (v0 :: rest) v0 } := by
    unfold ModuleIndexFetcher.getPackageVersions
    rw [hcons]
  have hsorted : List.Sorted (tsDesc dv) (v0 :: rest) :=
    hcons ▸ sortedEntries_sorted dv index P
  have hperm : (v0 :: rest).Perm (packageEntries index P) :=
    hcons ▸ sortedEntries_perm dv index P
  refine ⟨_, hgpv, rfl, hsorted, hperm, ?_, ?_⟩
  · intro hex
    exact selectLatest_stable dv (v0 :: rest) v0 hsorted hex
  · intro hall
    exact ⟨v0, List.mem_cons_self _ _,
      selectLatest_all_prerelease v0 rest hall,
      sorted_head_max dv v0 rest hsorted⟩

/-- Witness for C1 at the spec's example feed: a newer pre-release and an older
stable version; `latest` resolves to the stable `v1.9.0`. -/
theorem getPackageVersions_sorted_and_latest_witness :
    (∃ m ∈ c1Index, m.path = "test/pkg") ∧
    (∃ pv, ModuleIndexFetcher.getPackageVersions c1Dv c1Index "test/pkg" = some pv ∧
      pv.path = "test/pkg" ∧
      List.Sorted (tsDesc c1Dv) pv.versions ∧
      pv.versions.Perm (packageEntries c1Index "test/pkg") ∧
      latestSelectionCorrect c1Dv pv) ∧
    (ModuleIndexFetcher.getPackageVersions c1Dv c1Index "test/pkg").map
      (fun pv => pv.latest) = some "v1.9.0" :=
  ⟨by decide,
   getPackageVersions_sorted_and_latest c1Dv c1Index "test/pkg" (by decide),
   by decide⟩

/- ===================== C2 ===================== -/

theorem ncLookup_append_new {α : Type} (key : String) (v : α) (t : Int) :
    ∀ data : List (String × α × Int), (∀ e ∈ data, ¬ (e.1 = key)) →
      ncLookup (data ++ [(key, v, t)]) key = some (v, t) := by
  intro data
  induction data with
  | nil => intro _; simp [ncLookup]
  | cons e es ih =>
    intro h
    have he : ¬ (e.1 = key) := h e (List.mem_cons_self _ _)
    unfold ncLookup at *
    rw [List.cons_append, List.find?_cons_of_neg _ (by simpa using he)]
    exact ih (fun x hx => h x (List.mem_cons_of_mem _ hx))

theorem ncLookup_replace {α : Type} (key : String) (v : α) (t : Int) :
    ∀ data : List (String × α × Int), data.any (fun e => e.1 = key) →
      ncLookup (data.map (fun e => if e.1 = key then (key, v, t) else e)) key
        = some (v, t) := by
  intro data
  induction data with
  | nil => intro h; simp at h
  | cons e es ih =>
    intro h
    by_cases he : e.1 = key
    · unfold ncLookup
      rw [List.map_cons, if_pos he, List.find?_cons_of_pos _ (by simp)]
      rfl
    · unfold ncLookup at *
      rw [List.map_cons, if_neg he, List.find?_cons_of_neg _ (by simpa using he)]
      refine ih ?_
      simpa [List.any_cons, he] using h

/-- After a write, the written key maps to the stored value and expiry. -/
theorem ncLookup_ncSetData {α : Type} (data : List (String × α × Int))
    (key : String) (v : α) (t : Int) :
    ncLookup (ncSetData data key v t) key = some (v, t) := by
  unfold ncSetData
  by_cases hany : data.any (fun e => e.1 = key)
  · rw [if_pos hany]
    exact ncLookup_replace key v t data hany
  · rw [if_neg hany]
    refine ncLookup_append_new key v t data ?_
    intro e he hk
    exact hany (List.any_eq_true.mpr ⟨e, he, by simpa using hk⟩)

/-- The get-or-fetch write: after a lookup on `c` followed by a successful store
of `v` under `k`, the cache holds `v` wrapped in an envelope carrying the
effective TTL, with expiry `now + ttl·1000`. -/
theorem docCache_get_then_set_lookup {α : Type} (c : DocumentationCache α)
    (k : String) (now : Int) (v : α) (ttl : Option Int)
    (hroom : c.cache.maxKeys ≤ -1 ∨ (c.cache.data.length : Int) < c.cache.maxKeys)
    (heff : jsOrInt ttl c.defaultTTL ≠ 0) :
    ncLookup ((DocumentationCache.set
        (DocumentationCache.get c k now).1 k v ttl now).1).cache.data k =
      some ({ data := v, timestamp := now, ttl := jsOrInt ttl c.defaultTTL },
            now + jsOrInt ttl c.defaultTTL * 1000) := by
  have hshape := docCache_get_shape c k now
  set c1 := (DocumentationCache.get c k now).1 with hc1
  have hmax : c1.cache.maxKeys = c.cache.maxKeys := hshape.1
  have hd : c1.defaultTTL = c.defaultTTL := hshape.2.1
  have hlen : c1.cache.data.length ≤ c.cache.data.length := hshape.2.2
  have hroom1 : ¬ (c1.cache.maxKeys > -1 ∧
      (c1.cache.data.length : Int) ≥ c1.cache.maxKeys) := by
    rw [hmax]
    rcases hroom with h | h
    · intro hc
      omega
    · intro hc
      have : (c1.cache.data.length : Int) ≤ (c.cache.data.length : Int) := by
        exact_mod_cast hlen
      omega
  rw [docCache_set_ok c1 k v ttl now hroom1]
  dsimp only
  rw [hd, if_neg heff]
  exact ncLookup_ncSetData c1.cache.data k _ _

/-- C2: a request carrying the sentinel version `"latest"` resolves it through
the Version Index Client's `getLatestVersion`; an empty resolution proceeds with
no version qualifier; the cache key is built from the resolved version; a cache
hit is returned immediately; a miss invokes the extractor (or the Version Index
Client for a versions request) and stores the result under the computed key with
the operation's TTL — the default TTL for documents, 300 seconds for search and
versions. -/
theorem orchestrator_latest_resolution_and_ttl (dv : String → Int)
    (index : List ModuleVersion) (fetchDoc : String → Option String → PackageDoc)
    (searchFetch : String → Int → List SearchResult)
    (c : DocumentationCache Payload) (now : Int) (path query : String)
    (limit : Option Int) (hTTL : c.defaultTTL ≠ 0)
    (hroom : c.cache.maxKeys ≤ -1 ∨ (c.cache.data.length : Int) < c.cache.maxKeys) :
    resolveVersion dv index path (some "latest") =
      ModuleIndexFetcher.getLatestVersion dv index path ∧
    (ModuleIndexFetcher.getLatestVersion dv index path = none →
      packageKey path (resolveVersion dv index path (some "latest")) =
        "package:" ++ path) ∧
    (∀ d, (DocumentationCache.get c
        (packageKey path (resolveVersion dv index path (some "latest"))) now).2
          = some d →
      d.jsTruthy = true →
      handleGetPackageDoc dv index fetchDoc c now path (some "latest") =
        ((DocumentationCache.get c
          (packageKey path (resolveVersion dv index path (some "latest"))) now).1,
         d)) ∧
    ((DocumentationCache.get c
        (packageKey path (resolveVersion dv index path (some "latest"))) now).2
          = none →
      (handleGetPackageDoc dv index fetchDoc c now path (some "latest")).2 =
        Payload.pkg (fetchDoc path (resolveVersion dv index path (some "latest"))) ∧
      ncLookup (handleGetPackageDoc dv index fetchDoc c now path
          (some "latest")).1.cache.data
          (packageKey path (resolveVersion dv index path (some "latest"))) =
        some ({ data := Payload.pkg
                  (fetchDoc path (resolveVersion dv index path (some "latest")))
              , timestamp := now, ttl := c.defaultTTL },
              now + c.defaultTTL * 1000)) ∧
    ((DocumentationCache.get c (searchKey query (jsOrInt limit 10)) now).2 = none →
      ncLookup (handleSearchPackages searchFetch c now query limit).1.cache.data
          (searchKey query (jsOrInt limit 10)) =
        some ({ data := Payload.search (searchFetch query (jsOrInt limit 10))
              , timestamp := now, ttl := 300 }, now + 300 * 1000)) ∧
    ((DocumentationCache.get c (versionsKey path) now).2 = none →
      ncLookup (handleGetPackageVersions dv index c now path).1.cache.data
          (versionsKey path) =
        some ({ data := Payload.versions
                  (ModuleIndexFetcher.getPackageVersions dv index path)
              , timestamp := now, ttl := 300 }, now + 300 * 1000)) := by
  have hres : resolveVersion dv index path (some "latest") =
      ModuleIndexFetcher.getLatestVersion dv index path := by
    unfold resolveVersion
    rw [if_pos rfl]
  refine ⟨hres, ?_, ?_, ?_, ?_, ?_⟩
  · intro hnone
    rw [hres, hnone]
    rfl
  · intro d hd htruthy
    simp only [handleGetPackageDoc]
    rw [hd]
    simp [htruthy]
  · intro hmiss
    constructor
    · simp only [handleGetPackageDoc]
      rw [hmiss]
    · simp only [handleGetPackageDoc]
      rw [hmiss]
      have := docCache_get_then_set_lookup c
        (packageKey path (resolveVersion dv index path (some "latest"))) now
        (Payload.pkg (fetchDoc path (resolveVersion dv index path (some "latest"))))
        none hroom (by simpa [jsOrInt] using hTTL)
      simpa [jsOrInt] using this
  · intro hmiss
    simp only [handleSearchPackages]
    rw [hmiss]
    have := docCache_get_then_set_lookup c (searchKey query (jsOrInt limit 10)) now
      (Payload.search (searchFetch query (jsOrInt limit 10))) (some 300) hroom
      (by simp [jsOrInt])
    simpa [jsOrInt] using this
  · intro hmiss
    simp only [handleGetPackageVersions]
    rw [hmiss]
    have := docCache_get_then_set_lookup c (versionsKey path) now
      (Payload.versions (ModuleIndexFetcher.getPackageVersions dv index path))
      (some 300) hroom (by simp [jsOrInt])
    cases hvs : ModuleIndexFetcher.getPackageVersions dv index path with
    | none =>
      rw [hvs] at this
      simpa [hvs, jsOrInt] using this
    | some pv =>
      rw [hvs] at this
      simpa [hvs, jsOrInt] using this

/-- Witness for C2 on a fresh cache and an empty index: the sentinel resolves to
nothing, the key carries no version qualifier, and the miss stores the fetched
document under the key with the default TTL. -/
theorem orchestrator_latest_resolution_and_ttl_witness :
    c2Cache.defaultTTL ≠ 0 ∧
    (c2Cache.cache.maxKeys ≤ -1 ∨
      (c2Cache.cache.data.length : Int) < c2Cache.cache.maxKeys) ∧
    resolveVersion c2Dv [] "fmt" (some "latest") =
      ModuleIndexFetcher.getLatestVersion c2Dv [] "fmt" ∧
    packageKey "fmt" (resolveVersion c2Dv [] "fmt" (some "latest")) =
      "package:" ++ "fmt" ∧
    (handleGetPackageDoc c2Dv [] c2FetchDoc c2Cache 0 "fmt" (some "latest")).2 =
      Payload.pkg (c2FetchDoc "fmt" (resolveVersion c2Dv [] "fmt" (some "latest"))) ∧
    ncLookup (handleGetPackageDoc c2Dv [] c2FetchDoc c2Cache 0 "fmt"
        (some "latest")).1.cache.data
        (packageKey "fmt" (resolveVersion c2Dv [] "fmt" (some "latest"))) =
      some ({ data := Payload.pkg
                (c2FetchDoc "fmt" (resolveVersion c2Dv [] "fmt" (some "latest")))
            , timestamp := 0, ttl := c2Cache.defaultTTL },
            0 + c2Cache.defaultTTL * 1000) := by
  have r := orchestrator_latest_resolution_and_ttl c2Dv [] c2FetchDoc c2SearchFetch
    c2Cache 0 "fmt" "q" none (by decide) (Or.inr (by decide))
  have hmiss : (DocumentationCache.get c2Cache
      (packageKey "fmt" (resolveVersion c2Dv [] "fmt" (some "latest"))) 0).2
        = none := by decide
  have hm := r.2.2.2.1 hmiss
  exact ⟨by decide, Or.inr (by decide), r.1, r.2.1 (by decide), hm.1, hm.2⟩
